import Mathlib

/-!
Shallow embedding of the core of the `local-runtime` crate: the `poll`-based
reactor (`src/reactor/unix.rs`), the timer queue and timeout combinator
(`src/timer.rs`), the async I/O adapter (`src/io.rs`), and the merge/join
concurrency combinators (`src/concurrency.rs`).

Machine integers are modelled as `Nat`/`Int` with explicit saturation where the
source saturates; wakers are modelled by numeric identifiers; invoking a waker
is modelled by recording its identifier in an output list.
-/

instance {ε α : Type} [DecidableEq ε] [DecidableEq α] : DecidableEq (Except ε α) :=
  fun a b =>
    match a, b with
    | .error x, .error y =>
      if h : x = y then isTrue (by rw [h])
      else isFalse (fun hc => by cases hc; exact h rfl)
    | .ok x, .ok y =>
      if h : x = y then isTrue (by rw [h])
      else isFalse (fun hc => by cases hc; exact h rfl)
    | .error _, .ok _ => isFalse (fun hc => by cases hc)
    | .ok _, .error _ => isFalse (fun hc => by cases hc)

/-- Outcome of polling a suspendable computation (`std::task::Poll`). -/
inductive PollOut (α : Type) where
  | ready (a : α)
  | pending
deriving DecidableEq, Repr

/-! ### Poll flags and interest (src/reactor/unix.rs lines 24-35)

`PollFlags` keeps one boolean per flag that the reactor manipulates:
`IN`, `OUT`, `HUP`, `ERR`, `PRI`, plus `NVAL` which `poll(2)` may report
spontaneously.  The field `in_` stands for `IN`.
-/

structure PollFlags where
  in_ : Bool
  out : Bool
  hup : Bool
  err : Bool
  pri : Bool
  nval : Bool
deriving DecidableEq, Repr

namespace PollFlags

def empty : PollFlags := ⟨false, false, false, false, false, false⟩

/-- `revents.is_empty()` in rustix: no flag bit set. -/
def isEmpty (r : PollFlags) : Bool :=
  !(r.in_ || r.out || r.hup || r.err || r.pri || r.nval)

/-- Bitwise intersection test (`PollFlags::intersects`). -/
def intersects (a b : PollFlags) : Bool :=
  (a.in_ && b.in_) || (a.out && b.out) || (a.hup && b.hup) ||
    (a.err && b.err) || (a.pri && b.pri) || (a.nval && b.nval)

/-- The mask used by the reactor's dispatch loop:
`IN | OUT | HUP | ERR | PRI` (src/reactor/unix.rs lines 113-119). -/
def wakeMask : PollFlags := ⟨true, true, true, true, true, false⟩

end PollFlags

/-- I/O interest: a pair of boolean flags (src/reactor/mod.rs data model). -/
structure Interest where
  read : Bool
  write : Bool
deriving DecidableEq, Repr

/-- `impl From<Interest> for PollFlags` (src/reactor/unix.rs lines 24-35):
read adds `IN | HUP | ERR | PRI`, write adds `OUT | HUP | ERR`. -/
def Interest.toPollFlags (i : Interest) : PollFlags :=
  { in_ := i.read
    out := i.write
    hup := i.read || i.write
    err := i.read || i.write
    pri := i.read
    nval := false }

/-! ### PollTimeout::set_timeout (src/reactor/unix.rs lines 283-294)

Rust's `Duration` is an exact count of nanoseconds; `as_millis` truncates,
`as_nanos` is exact.  The conversion to `i32` uses `try_into().unwrap_or(i32::MAX)`
followed by `saturating_add`.
-/

/-- A `std::time::Duration`, as its total nanosecond count. -/
structure RDuration where
  nanos : Nat
deriving DecidableEq, Repr

/-- `Duration::as_millis` (truncating division). -/
def RDuration.asMillis (d : RDuration) : Nat := d.nanos / 1000000

def i32Max : Int := 2147483647
def i32Min : Int := -2147483648

/-- `u128 -> i32` conversion via `try_into().unwrap_or(i32::MAX)`;
the source value is a nonnegative millisecond count. -/
def tryIntoI32 (m : Nat) : Int :=
  if (m : Int) ≤ i32Max then (m : Int) else i32Max

/-- `i32::saturating_add`. -/
def satAddI32 (a b : Int) : Int := max (min (a + b) i32Max) i32Min

namespace PollTimeout

/-- `PollTimeout::set_timeout` (src/reactor/unix.rs lines 283-294):
map the duration to milliseconds, add 1 (saturating) when `as_nanos() > 0`,
and return `-1` for `None`. -/
def set_timeout (duration : Option RDuration) : Int :=
  match duration with
  | none => -1
  | some d => satAddI32 (tryIntoI32 d.asMillis) (if d.nanos > 0 then 1 else 0)

end PollTimeout

/-! ### FlagNotifier (src/reactor/unix.rs lines 216-258)

The notifier state tracks the atomic `is_notified` flag, the number of unread
signals pending in the underlying descriptor, and the cumulative count of
inner `notify()` writes ever performed on the descriptor.
-/

structure NotifierState where
  isNotified : Bool
  pending : Nat
  writeCount : Nat
deriving DecidableEq, Repr

namespace FlagNotifier

/-- `FlagNotifier::notify` (src/reactor/unix.rs lines 244-258): the inner
write happens only when the compare-exchange from `false` to `true` succeeds. -/
def notify (s : NotifierState) : NotifierState :=
  if s.isNotified then s
  else { isNotified := true, pending := s.pending + 1, writeCount := s.writeCount + 1 }

/-- `FlagNotifier::clear` (src/reactor/unix.rs lines 231-237): drain the
inner descriptor, then reset the flag. -/
def clear (s : NotifierState) : NotifierState :=
  { isNotified := false, pending := 0, writeCount := s.writeCount }

/-- `FlagNotifier::set_to_notified` (src/reactor/unix.rs lines 239-241). -/
def set_to_notified (s : NotifierState) : NotifierState :=
  { s with isNotified := true }

/-- Apply `n` consecutive `notify()` calls. -/
def notifyN : Nat → NotifierState → NotifierState
  | 0, s => s
  | n + 1, s => notifyN n (notify s)

end FlagNotifier

/-! ### Timeout combinator (src/timer.rs lines 154-201) -/

/-- The `TimedOut` error type (src/timer.rs line 155). -/
inductive TimedOut where
  | timedOut
deriving DecidableEq, Repr

namespace Timeout

/-- One poll of `Timeout<F>` (src/timer.rs lines 176-184): poll the child
future first; if ready return `Ok`; otherwise poll the timer; if the timer is
ready return `Err(TimedOut)`; otherwise pending. -/
def poll (futRes : PollOut α) (timerRes : PollOut Unit) :
    PollOut (Except TimedOut α) :=
  match futRes with
  | .ready out => .ready (.ok out)
  | .pending =>
    match timerRes with
    | .ready () => .ready (.error .timedOut)
    | .pending => .pending

/-- Drive a `Timeout` future over a trace of child/timer poll outcomes,
stopping at the first ready result (a future is not polled after completion).
Returns the list of ready outputs produced. -/
def run : List (PollOut α × PollOut Unit) → List (Except TimedOut α)
  | [] => []
  | (f, t) :: rest =>
    match poll f t with
    | .ready out => [out]
    | .pending => run rest

end Timeout

/-! ### TimerQueue (src/timer.rs lines 19-93)

The `BTreeMap<(Instant, Id), Waker>` is embedded as a list of entries
strictly sorted by the key `(expiry, id)`; `first_entry` is the head of the
list.  `Instant` and `Duration` become `Nat` (nanoseconds); a waker is a
numeric identifier and "waking" records the identifier in an output list.
-/

structure TimerEntry where
  expiry : Nat
  id : Nat
  waker : Nat
deriving DecidableEq, Repr

/-- Strict order of `BTreeMap` keys `(Instant, Id)`: lexicographic. -/
def TimerEntry.keyLt (a b : TimerEntry) : Prop :=
  a.expiry < b.expiry ∨ (a.expiry = b.expiry ∧ a.id < b.id)

instance (a b : TimerEntry) : Decidable (a.keyLt b) := by
  unfold TimerEntry.keyLt; infer_instance

/-- A well-formed timer queue: entries strictly sorted by `(expiry, id)`,
as in a `BTreeMap` iterated in key order. -/
def TimerQueueSorted (q : List TimerEntry) : Prop :=
  List.Pairwise TimerEntry.keyLt q

/-- Result of `TimerQueue::next_timeout`: the wakers invoked (in order), the
remaining queue, and the returned `Option<Duration>`. -/
structure NextTimeoutResult where
  fired : List Nat
  timers : List TimerEntry
  ret : Option Nat
deriving DecidableEq, Repr

namespace TimerQueue

/-- `TimerQueue::next_timeout` (src/timer.rs lines 36-52): repeatedly look at
the earliest entry; if its expiry is `≤ now`, remove it and invoke its waker;
otherwise return `expiry - now`.  Returns `none` when the queue is empty. -/
def next_timeout (now : Nat) : List TimerEntry → NextTimeoutResult
  | [] => ⟨[], [], none⟩
  | e :: rest =>
    if e.expiry ≤ now then
      let r := next_timeout now rest
      ⟨e.waker :: r.fired, r.timers, r.ret⟩
    else
      ⟨[], e :: rest, some (e.expiry - now)⟩

end TimerQueue

/-! ### PollReactor (src/reactor/unix.rs lines 37-133)

The per-cycle state `ReactorInner` holds the registered poll entries (their
requested event flags) and the parallel waker vector.  `wait` is embedded as
a function of the cycle state together with the outcomes of the environment:
the result of `Timeout::set_timeout`, the poll entries appended for the
notifier/timeout fds, and the result of `poll(2)` — either an error or the
`revents` the kernel assigned to every entry (user entries first, then the
notifier/timeout entries).  Syscall errors are numeric codes.
-/

structure ReactorInner where
  pollfds : List PollFlags
  wakers : List Nat
deriving DecidableEq, Repr

/-- `PollReactor::register` (src/reactor/unix.rs lines 66-73): push the
pollfd built from the interest, and the waker, onto the per-cycle vectors. -/
def ReactorInner.register (inn : ReactorInner) (interest : Interest) (waker : Nat) : ReactorInner :=
  { pollfds := inn.pollfds ++ [interest.toPollFlags]
    wakers := inn.wakers ++ [waker] }

/-- The cycle state produced by a sequence of `register` calls on a fresh
cycle. -/
def ReactorInner.ofRegs (regs : List (Interest × Nat)) : ReactorInner :=
  regs.foldl (fun inn r => inn.register r.1 r.2) ⟨[], []⟩

/-- `InnerGuard`'s `Drop` impl (src/reactor/unix.rs lines 77-83): clear both
per-cycle vectors.  It runs on every exit path of `wait`. -/
def InnerGuard.drop (_inn : ReactorInner) : ReactorInner := ⟨[], []⟩

structure WaitResult where
  inner : ReactorInner
  fired : List Nat
  res : Except Nat Unit
deriving DecidableEq, Repr

namespace PollReactor

/-- `PollReactor::wait` (src/reactor/unix.rs lines 75-128).

* `extraEvents` are the poll entries pushed by `notifier.inner.register` and
  `timeout.register` (one `IN` entry for the notifier, plus one for a
  timerfd when used).
* `setTimeoutRes` is the outcome of `timeout.set_timeout` and `pollRes` the
  outcome of `poll(2)`; on success the kernel yields the `revents` of every
  entry, and the syscall's return value is the number of entries with
  non-empty `revents`.

On either error the drop guard clears the vectors and the error propagates.
On success, the waker dispatch loop is skipped when no events arrived, or
when the only entries with events are the trailing notifier/timeout entries;
otherwise each waker whose entry's `revents` intersects
`IN | OUT | HUP | ERR | PRI` is invoked. -/
def wait (inner : ReactorInner) (extraEvents : List PollFlags)
    (setTimeoutRes : Except Nat Int)
    (pollRes : Except Nat (List PollFlags)) : WaitResult :=
  match setTimeoutRes with
  | .error e => ⟨InnerGuard.drop inner, [], .error e⟩
  | .ok _ =>
    let inner1 : ReactorInner := { pollfds := inner.pollfds ++ extraEvents, wakers := inner.wakers }
    match pollRes with
    | .error e => ⟨InnerGuard.drop inner1, [], .error e⟩
    | .ok allRevents =>
      let n := allRevents.countP (fun r => !r.isEmpty)
      let extraCount := (allRevents.drop inner1.wakers.length).countP (fun r => !r.isEmpty)
      let fired :=
        if n = 0 then []
        else if (n = 1 ∨ n = 2) ∧ extraCount = n then []
        else
          (allRevents.zip inner1.wakers).filterMap fun rw =>
            if rw.1.intersects PollFlags.wakeMask then some rw.2 else none
      ⟨InnerGuard.drop inner1, fired, .ok ()⟩

end PollReactor

/-! ### Async I/O adapter (src/io.rs lines 66-172)

`poll_event` / `poll_event_mut` attempt the I/O operation once; `WouldBlock`
becomes a registration with the reactor plus a pending result; any other
error is surfaced unmodified.  I/O errors are a `WouldBlock` marker or an
opaque other kind; the operation result is an `Except`.  The registrations
performed via `REACTOR.with(|r| r.enable_event(...))` are recorded as a list
of `(interest, waker)` pairs, and the descriptor-level effects of an
operation are recorded as `FdAction`s.
-/

inductive IOErrorKind where
  | wouldBlock
  | other (code : Nat)
deriving DecidableEq, Repr

/-- Actions the adapter can perform on its handle or descriptor. -/
inductive FdAction where
  | enableEvent (interest : Interest) (waker : Nat)
  | closeFd
deriving DecidableEq, Repr

structure EventResult (P : Type) where
  out : PollOut (Except IOErrorKind P)
  regs : List (Interest × Nat)
deriving DecidableEq, Repr

structure EventResultMut (T P : Type) where
  inner : T
  out : PollOut (Except IOErrorKind P)
  regs : List (Interest × Nat)
deriving DecidableEq, Repr

namespace Async

/-- `Async::poll_event` (src/io.rs lines 75-91): run the operation on the
shared inner value; `Ok` is ready, `WouldBlock` registers and is pending,
other errors are ready with the error. -/
def poll_event (inner : T) (interest : Interest) (waker : Nat)
    (op : T → Except IOErrorKind P) : EventResult P :=
  match op inner with
  | .ok n => ⟨.ready (.ok n), []⟩
  | .error .wouldBlock => ⟨.pending, [(interest, waker)]⟩
  | .error e => ⟨.ready (.error e), []⟩

/-- `Async::poll_event_mut` (src/io.rs lines 93-109): same as `poll_event`
but the operation may mutate the inner value, which is threaded through. -/
def poll_event_mut (inner : T) (interest : Interest) (waker : Nat)
    (op : T → T × Except IOErrorKind P) : EventResultMut T P :=
  match op inner with
  | (inner', .ok n) => ⟨inner', .ready (.ok n), []⟩
  | (inner', .error .wouldBlock) => ⟨inner', .pending, [(interest, waker)]⟩
  | (inner', .error e) => ⟨inner', .ready (.error e), []⟩

/-- The `Interest::Write` value used by the `AsyncWrite` impls. -/
def interestWrite : Interest := ⟨false, true⟩

/-- Descriptor-level actions performed by an `EventResultMut`: only
`enable_event` registrations; the adapter never closes the descriptor. -/
def EventResultMut.actions (r : EventResultMut T P) : List FdAction :=
  r.regs.map fun p => .enableEvent p.1 p.2

def EventResult.actions (r : EventResult P) : List FdAction :=
  r.regs.map fun p => .enableEvent p.1 p.2

/-- `<Async<T> as AsyncWrite>::poll_flush` (src/io.rs lines 144-146):
`poll_event_mut(Interest::Write, cx, |inner| inner.flush())`. -/
def poll_flush (inner : T) (waker : Nat)
    (flushOp : T → T × Except IOErrorKind Unit) : EventResultMut T Unit :=
  poll_event_mut inner interestWrite waker flushOp

/-- `<Async<T> as AsyncWrite>::poll_close` (src/io.rs lines 148-150):
delegates to `poll_flush`. -/
def poll_close (inner : T) (waker : Nat)
    (flushOp : T → T × Except IOErrorKind Unit) : EventResultMut T Unit :=
  poll_flush inner waker flushOp

/-- `<&Async<T> as AsyncWrite>::poll_flush` (src/io.rs lines 165-167):
`poll_event(Interest::Write, cx, |mut inner| inner.flush())`. -/
def poll_flush_shared (inner : T) (waker : Nat)
    (flushOp : T → Except IOErrorKind Unit) : EventResult Unit :=
  poll_event inner interestWrite waker flushOp

/-- `<&Async<T> as AsyncWrite>::poll_close` (src/io.rs lines 169-171):
delegates to the shared `poll_flush`. -/
def poll_close_shared (inner : T) (waker : Nat)
    (flushOp : T → Except IOErrorKind Unit) : EventResult Unit :=
  poll_flush_shared inner waker flushOp

end Async

/-! ### poll_merged (src/concurrency.rs lines 180-236)

The merge driver's state: per-child poller slots (`None` once a child has
terminated), per-child waker slots (`none` until the trampoline waker is
created by `get_or_insert_with`, then `some flag` where `flag` is the
`FlagWaker`'s `awoken` boolean; a fresh `FlagWaker` starts with the flag
`true`), the rotating start index, and the count of terminated children.

A child is a state machine `pollStep : P → PollOut O × P`; polling may
mutate the child, which is threaded back into its slot.  The indices of the
children actually polled (in order) are recorded for the analysis.
-/

structure MergeState (P : Type) where
  pollers : List (Option P)
  flags : List (Option Bool)
  idx : Nat
  noneCount : Nat
deriving DecidableEq, Repr

inductive MergeOut (T : Type) where
  | yielded (t : T)
  | ended
  | stillPending
deriving DecidableEq, Repr

structure MergeResult (P T : Type) where
  state : MergeState P
  out : MergeOut T
  polled : List Nat
deriving DecidableEq, Repr

/-- The order in which `poll_merged` visits the child slots: positions
`idx, idx+1, …, len-1` (`futs_remain`) then `0, …, idx-1` (`futs_past`),
per `split_at_mut(*idx)` followed by `iter_remain.chain(iter_past)`. -/
def visitOrder (len idx : Nat) : List Nat :=
  (List.range len).drop idx ++ (List.range len).take idx

/-- The `FlagWaker::wake` trampoline (src/concurrency.rs lines 18-23) as it
acts on the merge state: set the child's awoken flag (the upstream wake is
outside this model). -/
def MergeState.wakeChild (st : MergeState P) (j : Nat) : MergeState P :=
  { st with flags := st.flags.set j (some true) }

/-- One iteration of the `poll_merged` loop body for the slot at position
`j` (src/concurrency.rs lines 205-234), except the trailing index update and
termination check.  Returns `.inl` on the early `return Poll::Ready(Some _)`
and `.inr (state, trace)` when the loop continues. -/
def pollMergedStep (pollStep : P → PollOut O × P) (optFn : O → Option T)
    (noneFn : O → Bool) (j : Nat) (st : MergeState P) (tr : List Nat) :
    MergeResult P T ⊕ (MergeState P × List Nat) :=
  match (st.pollers.get? j).getD none with
  | none => .inr (st, tr)
  | some p =>
    -- `get_or_insert_with` creates the FlagWaker with `awoken = true`;
    -- `check_awoken` reads the flag and resets it to `false`.
    let oldFlag := ((st.flags.get? j).getD none).getD true
    let stA := { st with flags := st.flags.set j (some false) }
    if oldFlag then
      match pollStep p with
      | (.pending, p') =>
        .inr ({ stA with pollers := stA.pollers.set j (some p') }, j :: tr)
      | (.ready out, p') =>
        let stB := { stA with pollers := stA.pollers.set j (some p') }
        let stC :=
          if noneFn out then
            { stB with pollers := stB.pollers.set j none, noneCount := stB.noneCount + 1 }
          else stB
        match optFn out with
        | some ret =>
          -- set_awoken, then return Poll::Ready(Some(ret)) without
          -- updating the index
          .inl ⟨{ stC with flags := stC.flags.set j (some true) }, .yielded ret,
            (j :: tr).reverse⟩
        | none => .inr (stC, j :: tr)
    else .inr (stA, tr)

/-- The `poll_merged` loop over the remaining visit order.  After each slot
the index advances by one modulo `len`, and the stream ends when every child
has terminated. -/
def pollMergedGo (pollStep : P → PollOut O × P) (optFn : O → Option T)
    (noneFn : O → Bool) (len : Nat) :
    List Nat → MergeState P → List Nat → MergeResult P T
  | [], st, tr => ⟨st, .stillPending, tr.reverse⟩
  | j :: rest, st, tr =>
    match pollMergedStep pollStep optFn noneFn j st tr with
    | .inl res => res
    | .inr (st1, tr1) =>
      let st2 := { st1 with idx := (st1.idx + 1) % len }
      if st2.noneCount = len then ⟨st2, .ended, tr1.reverse⟩
      else pollMergedGo pollStep optFn noneFn len rest st2 tr1

/-- `poll_merged` (src/concurrency.rs lines 180-236). -/
def poll_merged (pollStep : P → PollOut O × P) (optFn : O → Option T)
    (noneFn : O → Bool) (st : MergeState P) : MergeResult P T :=
  pollMergedGo pollStep optFn noneFn st.pollers.length
    (visitOrder st.pollers.length st.idx) st []

/-- `MergeFutureStream::poll_next` (src/concurrency.rs lines 162-178):
`poll_merged` with `opt_fn = Some` and `none_fn = |_| true`. -/
def MergeFutureStream.poll_next (pollStep : P → PollOut T × P)
    (st : MergeState P) : MergeResult P T :=
  poll_merged pollStep some (fun _ => true) st

/-- `MergeStream::poll_next` (src/concurrency.rs lines 304-320):
`poll_merged` with `opt_fn = |o| o` and `none_fn = |o| o.is_none()`. -/
def MergeStream.poll_next (pollStep : P → PollOut (Option T) × P)
    (st : MergeState P) : MergeResult P T :=
  poll_merged pollStep id Option.isNone st

/-- Run `n` consecutive `poll_merged` calls (no intervening waker
invocations), collecting the per-call polled-index traces. -/
def pollMergedIter (pollStep : P → PollOut O × P) (optFn : O → Option T)
    (noneFn : O → Bool) : Nat → MergeState P → List (List Nat) × MergeState P
  | 0, st => ([], st)
  | n + 1, st =>
    let r := poll_merged pollStep optFn noneFn st
    let rec' := pollMergedIter pollStep optFn noneFn n r.state
    (r.polled :: rec'.1, rec'.2)

/-! ## Theorems -/

/-! ### Claim C2: PollTimeout::set_timeout -/

/-- Helper: `satAddI32 (tryIntoI32 m) 1` is `min (m + 1) i32Max`. -/
theorem satAdd_tryInto_one (m : Nat) :
    satAddI32 (tryIntoI32 m) 1 = min ((m : Int) + 1) i32Max := by
  simp only [satAddI32, tryIntoI32, i32Max, i32Min]
  split <;> omega

/-- C2 (counterexample): the claim says `set_timeout(Some(d))` is `d` in
milliseconds rounded up by one millisecond *iff `d` has a non-zero
sub-millisecond component*; but for `d` of exactly one millisecond
(zero sub-millisecond component) the code returns `2`, not `1`: the code
adds the extra millisecond whenever `as_nanos() > 0`, i.e. whenever
`d` is non-zero. -/
theorem pollTimeout_set_timeout_cex :
    (RDuration.mk 1000000).asMillis = 1 ∧ 1000000 % 1000000 = 0 ∧
    PollTimeout.set_timeout (some ⟨1000000⟩) = 2 := by
  refine ⟨rfl, rfl, ?_⟩
  simp [PollTimeout.set_timeout, RDuration.asMillis, satAddI32, tryIntoI32, i32Max, i32Min]

/-- C2 (amended): `set_timeout(None) = -1`; `set_timeout(Some(0)) = 0`; and
for every *non-zero* `d` (not merely `d` with a non-zero sub-millisecond
component), `set_timeout(Some(d))` is `d` truncated to milliseconds plus
one, saturated at `i32::MAX`.  In particular `set_timeout(Some(d)) = 1` for
`0 < d < 1ms`. -/
theorem pollTimeout_set_timeout_spec :
    PollTimeout.set_timeout none = -1 ∧
    PollTimeout.set_timeout (some ⟨0⟩) = 0 ∧
    (∀ d : RDuration, 0 < d.nanos →
      PollTimeout.set_timeout (some d) = min ((d.asMillis : Int) + 1) i32Max) ∧
    (∀ d : RDuration, 0 < d.nanos → d.nanos < 1000000 →
      PollTimeout.set_timeout (some d) = 1) := by
  refine ⟨rfl, by decide, ?_, ?_⟩
  · intro d hd
    simp only [PollTimeout.set_timeout, if_pos hd]
    exact satAdd_tryInto_one d.asMillis
  · intro d hd hlt
    have hm : d.asMillis = 0 := Nat.div_eq_of_lt hlt
    simp only [PollTimeout.set_timeout, if_pos hd, hm]
    simp [satAddI32, tryIntoI32, i32Max, i32Min]

/-- C2 witness: the amended round-up case evaluated at half a millisecond. -/
theorem pollTimeout_set_timeout_spec_witness :
    PollTimeout.set_timeout (some ⟨500000⟩) = 1 :=
  pollTimeout_set_timeout_spec.2.2.2 ⟨500000⟩ (by decide) (by decide)

/-! ### Claim C5: FlagNotifier writes at most once between clears -/

/-- Helper: `notify` is the identity once the flag is set. -/
theorem FlagNotifier.notify_of_notified (s : NotifierState)
    (h : s.isNotified = true) : FlagNotifier.notify s = s := by
  simp [FlagNotifier.notify, h]

/-- Helper: iterated `notify` is the identity once the flag is set. -/
theorem FlagNotifier.notifyN_of_notified (n : Nat) (s : NotifierState)
    (h : s.isNotified = true) : FlagNotifier.notifyN n s = s := by
  induction n with
  | zero => rfl
  | succ n ih =>
    simp [FlagNotifier.notifyN, FlagNotifier.notify_of_notified s h, ih]

/-- C5: any sequence of `notify()` calls after a `clear()` performs at most
one write on the underlying notifier descriptor (the write count grows by at
most one), and leaves at most one pending signal in it.  The write happens
only on the false-to-true transition of the `is_notified` flag, and `clear`
drains the descriptor before resetting the flag. -/
theorem flagNotifier_at_most_one_write (s : NotifierState) (n : Nat) :
    (FlagNotifier.notifyN n (FlagNotifier.clear s)).writeCount ≤
      (FlagNotifier.clear s).writeCount + 1 ∧
    (FlagNotifier.notifyN n (FlagNotifier.clear s)).pending ≤ 1 := by
  cases n with
  | zero => exact ⟨Nat.le_succ _, Nat.le_refl 0 |>.trans (Nat.zero_le 1)⟩
  | succ n =>
    have h1 : FlagNotifier.notify (FlagNotifier.clear s) =
        ⟨true, 1, s.writeCount + 1⟩ := by
      simp [FlagNotifier.notify, FlagNotifier.clear]
    have h2 : FlagNotifier.notifyN (n + 1) (FlagNotifier.clear s) =
        ⟨true, 1, s.writeCount + 1⟩ := by
      simp only [FlagNotifier.notifyN, h1]
      exact FlagNotifier.notifyN_of_notified n _ rfl
    rw [h2]
    exact ⟨Nat.le_refl _, Nat.le_refl 1⟩

/-! ### Claim C7: the Timeout combinator -/

/-- C7: `Timeout::poll` polls the child first, so a ready child yields `Ok`
even when the timer has also expired; it returns `Err(TimedOut)` iff the
child is pending and the timer has expired; and over any poll trace, run
until the first ready result, at most one `TimedOut` is ever produced. -/
theorem timeout_poll_spec {α : Type} (futRes : PollOut α) (timerRes : PollOut Unit)
    (trace : List (PollOut α × PollOut Unit)) :
    (∀ v, futRes = .ready v → Timeout.poll futRes timerRes = .ready (.ok v)) ∧
    (Timeout.poll futRes timerRes = .ready (.error .timedOut) ↔
      futRes = .pending ∧ timerRes = .ready ()) ∧
    (Timeout.run trace).countP
      (fun r => match r with | .error _ => true | .ok _ => false) ≤ 1 := by
  refine ⟨?_, ?_, ?_⟩
  · intro v hv
    subst hv
    rfl
  · cases futRes with
    | ready v => simp [Timeout.poll]
    | pending =>
      cases timerRes with
      | ready u => cases u; simp [Timeout.poll]
      | pending => simp [Timeout.poll]
  · have hlen : ∀ l : List (PollOut α × PollOut Unit), (Timeout.run l).length ≤ 1 := by
      intro l
      induction l with
      | nil => simp [Timeout.run]
      | cons p rest ih =>
        obtain ⟨f, t⟩ := p
        simp only [Timeout.run]
        cases h : Timeout.poll f t with
        | ready out => simp
        | pending => exact ih
    calc (Timeout.run trace).countP _ ≤ (Timeout.run trace).length :=
          List.countP_le_length _
      _ ≤ 1 := hlen trace

/-- C7 witness: a ready child preempts an expired timer. -/
theorem timeout_poll_spec_witness :
    Timeout.poll (.ready (5 : Nat)) (.ready ()) = .ready (.ok 5) :=
  (timeout_poll_spec (.ready 5) (.ready ()) []).1 5 rfl

/-! ### Claim C9: wait clears the per-cycle vectors on every exit path -/

/-- C9: whatever the outcomes of programming the timeout and of `poll(2)`,
after `wait` returns both per-cycle vectors are empty (the drop guard runs
on every exit path). -/
theorem reactor_wait_clears_cycle_state (inner : ReactorInner)
    (extraEvents : List PollFlags) (setRes : Except Nat Int)
    (pollRes : Except Nat (List PollFlags)) :
    (PollReactor.wait inner extraEvents setRes pollRes).inner.pollfds = [] ∧
    (PollReactor.wait inner extraEvents setRes pollRes).inner.wakers = [] := by
  cases setRes with
  | error e => exact ⟨rfl, rfl⟩
  | ok t =>
    cases pollRes with
    | error e => exact ⟨rfl, rfl⟩
    | ok revents => exact ⟨rfl, rfl⟩

/-! ### Claim C8: poll_event / poll_event_mut error policy -/

/-- C8: for both `poll_event` and `poll_event_mut`: a successful operation is
ready with the value and registers nothing; `WouldBlock` registers
`(interest, waker)` with the reactor and is pending, and `WouldBlock` is
never surfaced; any other error is ready with that error unmodified and
registers nothing. -/
theorem async_poll_event_spec {T P : Type} (inner : T) (interest : Interest)
    (waker : Nat) (op : T → Except IOErrorKind P)
    (opm : T → T × Except IOErrorKind P) :
    (∀ v, op inner = .ok v →
      Async.poll_event inner interest waker op = ⟨.ready (.ok v), []⟩) ∧
    (op inner = .error .wouldBlock →
      Async.poll_event inner interest waker op = ⟨.pending, [(interest, waker)]⟩) ∧
    (∀ c, op inner = .error (.other c) →
      Async.poll_event inner interest waker op = ⟨.ready (.error (.other c)), []⟩) ∧
    (Async.poll_event inner interest waker op).out ≠ .ready (.error .wouldBlock) ∧
    (∀ t' v, opm inner = (t', .ok v) →
      Async.poll_event_mut inner interest waker opm = ⟨t', .ready (.ok v), []⟩) ∧
    (∀ t', opm inner = (t', .error .wouldBlock) →
      Async.poll_event_mut inner interest waker opm = ⟨t', .pending, [(interest, waker)]⟩) ∧
    (∀ t' c, opm inner = (t', .error (.other c)) →
      Async.poll_event_mut inner interest waker opm = ⟨t', .ready (.error (.other c)), []⟩) ∧
    (Async.poll_event_mut inner interest waker opm).out ≠ .ready (.error .wouldBlock) := by
  refine ⟨?_, ?_, ?_, ?_, ?_, ?_, ?_, ?_⟩
  · intro v hv; simp [Async.poll_event, hv]
  · intro hv; simp [Async.poll_event, hv]
  · intro c hv; simp [Async.poll_event, hv]
  · unfold Async.poll_event
    match h : op inner with
    | .ok v => simp
    | .error .wouldBlock => simp
    | .error (.other c) => simp
  · intro t' v hv; simp [Async.poll_event_mut, hv]
  · intro t' hv; simp [Async.poll_event_mut, hv]
  · intro t' c hv; simp [Async.poll_event_mut, hv]
  · unfold Async.poll_event_mut
    match h : opm inner with
    | (t', .ok v) => simp
    | (t', .error .wouldBlock) => simp
    | (t', .error (.other c)) => simp

/-- C8 witness: `WouldBlock` turns into a registration plus pending. -/
theorem async_poll_event_spec_witness :
    Async.poll_event () ⟨true, false⟩ 3
      (fun _ => (.error .wouldBlock : Except IOErrorKind Nat)) =
      ⟨.pending, [(⟨true, false⟩, 3)]⟩ :=
  (async_poll_event_spec () ⟨true, false⟩ 3
    (fun _ => (.error .wouldBlock : Except IOErrorKind Nat))
    (fun u => (u, .error .wouldBlock))).2.1 rfl

/-! ### Claim C10: poll_close delegates to poll_flush and never closes -/

/-- C10: for both the owned and the shared-reference `AsyncWrite` impl,
`poll_close` returns exactly the result of `poll_flush` on the same state,
and performs no close of the underlying descriptor. -/
theorem async_poll_close_is_poll_flush {T : Type} (inner : T) (waker : Nat)
    (flushOp : T → T × Except IOErrorKind Unit)
    (flushOpShared : T → Except IOErrorKind Unit) :
    Async.poll_close inner waker flushOp = Async.poll_flush inner waker flushOp ∧
    FdAction.closeFd ∉
      Async.EventResultMut.actions (Async.poll_close inner waker flushOp) ∧
    Async.poll_close_shared inner waker flushOpShared =
      Async.poll_flush_shared inner waker flushOpShared ∧
    FdAction.closeFd ∉
      Async.EventResult.actions (Async.poll_close_shared inner waker flushOpShared) := by
  refine ⟨rfl, ?_, rfl, ?_⟩
  · simp [Async.EventResultMut.actions, List.mem_map]
  · simp [Async.EventResult.actions, List.mem_map]

/-! ### Claim C6: TimerQueue::next_timeout -/

/-- Helper: on a sorted queue, every entry left in place by `next_timeout`
has a deadline strictly in the future. -/
theorem TimerQueue.remaining_not_expired (now : Nat) (q : List TimerEntry)
    (hs : TimerQueueSorted q) :
    ∀ x ∈ (TimerQueue.next_timeout now q).timers, now < x.expiry := by
  induction q with
  | nil => intro x hx; simp [TimerQueue.next_timeout] at hx
  | cons e rest ih =>
    intro x hx
    rw [TimerQueue.next_timeout] at hx
    by_cases h : e.expiry ≤ now
    · rw [if_pos h] at hx
      exact ih (List.pairwise_cons.mp hs).2 x hx
    · rw [if_neg h] at hx
      rcases List.mem_cons.mp hx with rfl | hx'
      · omega
      · have hlt := (List.pairwise_cons.mp hs).1 x hx'
        unfold TimerEntry.keyLt at hlt
        omega

/-- Helper: on a sorted queue, every expired entry's waker is invoked by
`next_timeout`. -/
theorem TimerQueue.expired_fired (now : Nat) (q : List TimerEntry)
    (hs : TimerQueueSorted q) :
    ∀ e ∈ q, e.expiry ≤ now → e.waker ∈ (TimerQueue.next_timeout now q).fired := by
  induction q with
  | nil => intro e he; simp at he
  | cons a rest ih =>
    intro e he hexp
    rw [TimerQueue.next_timeout]
    by_cases h : a.expiry ≤ now
    · rw [if_pos h]
      rcases List.mem_cons.mp he with rfl | he'
      · exact List.mem_cons_self _ _
      · exact List.mem_cons_of_mem _ (ih (List.pairwise_cons.mp hs).2 e he' hexp)
    · rw [if_neg h]
      rcases List.mem_cons.mp he with rfl | he'
      · omega
      · have hlt := (List.pairwise_cons.mp hs).1 e he'
        unfold TimerEntry.keyLt at hlt
        omega

/-- C6: on a sorted timer queue, `next_timeout()` returns `none` when the
queue is empty; every timer whose deadline `d` satisfies `now ≥ d` has its
waker invoked and its entry removed; and when the earliest deadline `d`
satisfies `now < d` the queue is left untouched and `some (d - now)` is
returned with no waker invoked. -/
theorem timerQueue_next_timeout_spec (now : Nat) (q : List TimerEntry)
    (hs : TimerQueueSorted q) :
    (q = [] → TimerQueue.next_timeout now q = ⟨[], [], none⟩) ∧
    (∀ e ∈ q, e.expiry ≤ now →
      e.waker ∈ (TimerQueue.next_timeout now q).fired ∧
      e ∉ (TimerQueue.next_timeout now q).timers) ∧
    (∀ e rest, q = e :: rest → now < e.expiry →
      TimerQueue.next_timeout now q = ⟨[], q, some (e.expiry - now)⟩) := by
  refine ⟨?_, ?_, ?_⟩
  · rintro rfl; rfl
  · intro e he hexp
    refine ⟨TimerQueue.expired_fired now q hs e he hexp, fun hmem => ?_⟩
    have := TimerQueue.remaining_not_expired now q hs e hmem
    omega
  · rintro e rest rfl hlt
    rw [TimerQueue.next_timeout, if_neg (by omega)]

/-- C6 witness: a queue with two expired timers and one pending one, at
`now = 10`: both expired wakers fire and their entries are removed; the
remaining earliest deadline is 15 so `some 5` is returned. -/
theorem timerQueue_next_timeout_spec_witness :
    (100 : Nat) ∈ (TimerQueue.next_timeout 10
      [⟨5, 1, 100⟩, ⟨8, 2, 101⟩, ⟨15, 3, 102⟩]).fired ∧
    (⟨5, 1, 100⟩ : TimerEntry) ∉ (TimerQueue.next_timeout 10
      [⟨5, 1, 100⟩, ⟨8, 2, 101⟩, ⟨15, 3, 102⟩]).timers :=
  (timerQueue_next_timeout_spec 10 [⟨5, 1, 100⟩, ⟨8, 2, 101⟩, ⟨15, 3, 102⟩]
    (by unfold TimerQueueSorted; decide)).2.1 ⟨5, 1, 100⟩ (by decide) (by decide)

/-! ### Claim C1: wait invokes the waker of every ready registered source -/

/-- Helper: `revents` intersecting the flags registered for an interest also
intersects the dispatch mask `IN | OUT | HUP | ERR | PRI`, and is non-empty. -/
theorem PollFlags.intersects_toPollFlags_wakeMask (r : PollFlags) (int : Interest)
    (h : r.intersects int.toPollFlags = true) :
    r.intersects PollFlags.wakeMask = true ∧ r.isEmpty = false := by
  cases r with
  | mk i o hu e p nv =>
    cases int with
    | mk rd wr =>
      revert h
      cases i <;> cases o <;> cases hu <;> cases e <;> cases p <;> cases nv <;>
        cases rd <;> cases wr <;> decide

/-- Helper: the cycle state after a sequence of `register` calls holds the
interests' poll flags and the wakers, in registration order. -/
theorem ReactorInner.ofRegs_eq (regs : List (Interest × Nat)) :
    ReactorInner.ofRegs regs =
      ⟨regs.map (fun r => r.1.toPollFlags), regs.map Prod.snd⟩ := by
  suffices h : ∀ inn : ReactorInner, regs.foldl (fun inn r => inn.register r.1 r.2) inn =
      ⟨inn.pollfds ++ regs.map (fun r => r.1.toPollFlags),
        inn.wakers ++ regs.map Prod.snd⟩ by
    simpa [ReactorInner.ofRegs] using h ⟨[], []⟩
  induction regs with
  | nil => intro inn; simp
  | cons r rest ih =>
    intro inn
    rw [List.foldl_cons, ih]
    simp [ReactorInner.register]

/-- C1: if the `i`-th source registered during the cycle was registered with
interest `int` and waker `w`, the `poll(2)` call succeeds, and the kernel
reports readiness events on that entry intersecting the flags registered for
`int`, then `w` is among the wakers invoked before `wait` returns. -/
theorem reactor_wait_fires_matching_waker
    (regs : List (Interest × Nat)) (extraEvents : List PollFlags) (t : Int)
    (allRevents : List PollFlags) (i : Nat) (int : Interest) (w : Nat) (r : PollFlags)
    (hreg : regs.get? i = some (int, w))
    (hrev : allRevents.get? i = some r)
    (hmatch : r.intersects int.toPollFlags = true) :
    w ∈ (PollReactor.wait (ReactorInner.ofRegs regs) extraEvents
      (.ok t) (.ok allRevents)).fired := by
  obtain ⟨hmask, hne⟩ := PollFlags.intersects_toPollFlags_wakeMask r int hmatch
  have hilen : i < regs.length := by
    rcases List.get?_eq_some.mp hreg with ⟨h, _⟩; exact h
  have hw : (regs.map Prod.snd).get? i = some w := by
    rw [List.get?_map, hreg]; rfl
  have hwlen : (regs.map Prod.snd).length = regs.length := List.length_map _ _
  rw [ReactorInner.ofRegs_eq]
  simp only [PollReactor.wait]
  set users := allRevents.take regs.length with husers
  set extras := allRevents.drop regs.length with hextras
  have hsplit : allRevents = users ++ extras := (List.take_append_drop _ _).symm
  have hcu : 0 < users.countP (fun x => !x.isEmpty) := by
    apply List.countP_pos.mpr
    refine ⟨r, ?_, by simp [hne]⟩
    apply List.get?_mem (n := i)
    rw [husers, List.get?_take hilen]
    exact hrev
  have hcount : allRevents.countP (fun x => !x.isEmpty) =
      users.countP (fun x => !x.isEmpty) + extras.countP (fun x => !x.isEmpty) := by
    conv_lhs => rw [hsplit]
    exact List.countP_append _ _ _
  have hn0 : allRevents.countP (fun x => !x.isEmpty) ≠ 0 := by omega
  have hnex : ¬ ((allRevents.countP (fun x => !x.isEmpty) = 1 ∨
      allRevents.countP (fun x => !x.isEmpty) = 2) ∧
      extras.countP (fun x => !x.isEmpty) = allRevents.countP (fun x => !x.isEmpty)) := by
    rintro ⟨_, hc⟩; omega
  rw [hwlen, if_neg hn0, if_neg hnex]
  apply List.mem_filterMap.mpr
  refine ⟨(r, w), ?_, by simp [hmask]⟩
  apply List.get?_mem (n := i)
  exact (List.get?_zip_eq_some _ _ _ _).mpr ⟨hrev, hw⟩

/-- C1 witness: one source registered for read interest; the kernel reports
`IN` on it (plus nothing on the notifier entry); its waker 7 is invoked. -/
theorem reactor_wait_fires_matching_waker_witness :
    (7 : Nat) ∈ (PollReactor.wait (ReactorInner.ofRegs [(⟨true, false⟩, 7)])
      [PollFlags.empty] (.ok 0)
      (.ok [⟨true, false, false, false, false, false⟩, PollFlags.empty])).fired :=
  reactor_wait_fires_matching_waker [(⟨true, false⟩, 7)] [PollFlags.empty] 0
    [⟨true, false, false, false, false, false⟩, PollFlags.empty] 0
    ⟨true, false⟩ 7 ⟨true, false, false, false, false, false⟩ rfl rfl (by decide)

/-! ### Claims C3 and C4: the merge combinators -/

/-- Helper: characterization of a continuing loop body step: the index is
unchanged, lengths are preserved, and the flag/trace updates are correlated:
an unpolled slot leaves the trace alone; a polled slot records itself and
leaves its awoken flag cleared. -/
theorem pollMergedStep_inr {P O T : Type} (pollStep : P → PollOut O × P)
    (optFn : O → Option T) (noneFn : O → Bool) (k : Nat) (st : MergeState P)
    (tr : List Nat) (st1 : MergeState P) (tr1 : List Nat)
    (h : pollMergedStep pollStep optFn noneFn k st tr = .inr (st1, tr1)) :
    st1.idx = st.idx ∧ st1.pollers.length = st.pollers.length ∧
    st1.flags.length = st.flags.length ∧
    ((tr1 = tr ∧ st1.flags = st.flags) ∨
     (tr1 = tr ∧ st1.flags = st.flags.set k (some false)) ∨
     (tr1 = k :: tr ∧ st1.flags = st.flags.set k (some false))) := by
  simp only [pollMergedStep] at h
  repeat' split at h
  all_goals first
  | (rcases h with ⟨rfl, rfl⟩
     refine ⟨?_, ?_, ?_, ?_⟩ <;>
       first
       | rfl
       | (split <;> simp)
       | simp
       | exact Or.inl ⟨rfl, rfl⟩
       | exact Or.inr (Or.inl ⟨rfl, rfl⟩)
       | exact Or.inr (Or.inr ⟨rfl, rfl⟩)
       | (split <;> first
           | exact Or.inl ⟨rfl, rfl⟩
           | exact Or.inr (Or.inl ⟨rfl, rfl⟩)
           | exact Or.inr (Or.inr ⟨rfl, rfl⟩)))
  | cases h

/-- Helper: characterization of the early-return step (a child yielded):
the index is untouched, the yielding slot's flag is re-set, and the yielder
is the last polled index. -/
theorem pollMergedStep_inl {P O T : Type} (pollStep : P → PollOut O × P)
    (optFn : O → Option T) (noneFn : O → Bool) (k : Nat) (st : MergeState P)
    (tr : List Nat) (res : MergeResult P T)
    (h : pollMergedStep pollStep optFn noneFn k st tr = .inl res) :
    res.state.idx = st.idx ∧ res.state.pollers.length = st.pollers.length ∧
    res.state.flags = st.flags.set k (some true) ∧
    res.polled = (k :: tr).reverse ∧
    (∃ t, res.out = .yielded t) := by
  simp only [pollMergedStep] at h
  repeat' split at h
  all_goals cases h
  all_goals exact ⟨rfl, by simp, by simp [List.set_set], rfl, ⟨_, rfl⟩⟩

/-- Helper: a slot whose awoken flag is cleared is not polled: the step
continues with the trace unchanged and the flag still cleared. -/
theorem pollMergedStep_flag_false {P O T : Type} (pollStep : P → PollOut O × P)
    (optFn : O → Option T) (noneFn : O → Bool) (k : Nat) (st : MergeState P)
    (tr : List Nat) (h : st.flags.get? k = some (some false)) :
    pollMergedStep pollStep optFn noneFn k st tr =
      .inr ({ st with flags := st.flags.set k (some false) }, tr) ∨
    pollMergedStep pollStep optFn noneFn k st tr = .inr (st, tr) := by
  simp only [pollMergedStep, h]
  split
  · exact Or.inr rfl
  · simp

/-- Helper: a present slot whose awoken flag is set is polled: the step
either yields from it or continues with it recorded in the trace. -/
theorem pollMergedStep_polled {P O T : Type} (pollStep : P → PollOut O × P)
    (optFn : O → Option T) (noneFn : O → Bool) (k : Nat) (st : MergeState P)
    (tr : List Nat) (p : P) (hp : st.pollers.get? k = some (some p))
    (hf : ((st.flags.get? k).getD none).getD true = true) :
    (∃ res, pollMergedStep pollStep optFn noneFn k st tr = .inl res ∧
      res.polled = (k :: tr).reverse) ∨
    (∃ st1, pollMergedStep pollStep optFn noneFn k st tr = .inr (st1, k :: tr)) := by
  simp only [pollMergedStep, hp, Option.getD_some, hf, if_pos]
  split
  · exact Or.inr ⟨_, rfl⟩
  · split
    · exact Or.inl ⟨_, rfl, rfl⟩
    · exact Or.inr ⟨_, rfl⟩

/-- Helper: lengths of the poller and flag vectors are invariant across the
loop. -/
theorem pollMergedGo_lengths {P O T : Type} (pollStep : P → PollOut O × P)
    (optFn : O → Option T) (noneFn : O → Bool) (len : Nat) :
    ∀ (order : List Nat) (st : MergeState P) (tr : List Nat),
      (pollMergedGo pollStep optFn noneFn len order st tr).state.pollers.length =
        st.pollers.length ∧
      (pollMergedGo pollStep optFn noneFn len order st tr).state.flags.length =
        st.flags.length := by
  intro order
  induction order with
  | nil => intro st tr; exact ⟨rfl, rfl⟩
  | cons k rest ih =>
    intro st tr
    rw [pollMergedGo]
    cases hstep : pollMergedStep pollStep optFn noneFn k st tr with
    | inl res =>
      obtain ⟨_, hplen, hflags, _, _⟩ := pollMergedStep_inl _ _ _ _ _ _ _ hstep
      refine ⟨hplen, ?_⟩
      rw [hflags]
      simp
    | inr st1tr =>
      obtain ⟨st1, tr1⟩ := st1tr
      obtain ⟨_, hplen, hflen, _⟩ := pollMergedStep_inr _ _ _ _ _ _ _ _ hstep
      dsimp only
      by_cases hnc : st1.noneCount = len
      · rw [if_pos hnc]
        exact ⟨hplen, hflen⟩
      · rw [if_neg hnc]
        obtain ⟨h1, h2⟩ := ih { st1 with idx := (st1.idx + 1) % len } tr1
        exact ⟨h1.trans hplen, h2.trans hflen⟩

/-- Helper: a child whose awoken flag is cleared is not polled during the
loop, and its flag stays cleared. -/
theorem pollMergedGo_flag_false {P O T : Type} (pollStep : P → PollOut O × P)
    (optFn : O → Option T) (noneFn : O → Bool) (len : Nat) (j : Nat) :
    ∀ (order : List Nat) (st : MergeState P) (tr : List Nat),
      st.flags.get? j = some (some false) → j ∉ tr →
      j ∉ (pollMergedGo pollStep optFn noneFn len order st tr).polled ∧
      (pollMergedGo pollStep optFn noneFn len order st tr).state.flags.get? j =
        some (some false) := by
  intro order
  induction order with
  | nil =>
    intro st tr hflag htr
    simp only [pollMergedGo]
    exact ⟨by simpa using htr, hflag⟩
  | cons k rest ih =>
    intro st tr hflag htr
    have hjlen : j < st.flags.length := (List.get?_eq_some.mp hflag).1
    rw [pollMergedGo]
    by_cases hkj : k = j
    · subst hkj
      have hflag1 : (st.flags.set k (some false)).get? k = some (some false) := by
        rw [List.get?_set_eq_of_lt _ hjlen]
      rcases pollMergedStep_flag_false pollStep optFn noneFn k st tr hflag with h | h <;>
          rw [h] <;> dsimp only
      · by_cases hnc : st.noneCount = len
        · rw [if_pos hnc]
          exact ⟨by simpa using htr, hflag1⟩
        · rw [if_neg hnc]
          exact ih _ _ hflag1 htr
      · by_cases hnc : st.noneCount = len
        · rw [if_pos hnc]
          exact ⟨by simpa using htr, hflag⟩
        · rw [if_neg hnc]
          exact ih _ _ hflag htr
    · cases hstep : pollMergedStep pollStep optFn noneFn k st tr with
      | inl res =>
        obtain ⟨_, _, hflags, hpolled, _⟩ := pollMergedStep_inl _ _ _ _ _ _ _ hstep
        constructor
        · rw [hpolled]
          simp only [List.mem_reverse, List.mem_cons]
          rintro (rfl | hj)
          · exact hkj rfl
          · exact htr hj
        · rw [hflags, List.get?_set_ne _ _ hkj]
          exact hflag
      | inr st1tr =>
        obtain ⟨st1, tr1⟩ := st1tr
        obtain ⟨_, _, _, hcases⟩ := pollMergedStep_inr _ _ _ _ _ _ _ _ hstep
        have hflag1 : st1.flags.get? j = some (some false) := by
          rcases hcases with ⟨_, hf⟩ | ⟨_, hf⟩ | ⟨_, hf⟩ <;>
            rw [hf] <;> first
            | exact hflag
            | (rw [List.get?_set_ne _ _ hkj]; exact hflag)
        have htr1 : j ∉ tr1 := by
          rcases hcases with ⟨rfl, _⟩ | ⟨rfl, _⟩ | ⟨rfl, _⟩
          · exact htr
          · exact htr
          · simp only [List.mem_cons]
            rintro (rfl | hj)
            · exact hkj rfl
            · exact htr hj
        dsimp only
        by_cases hnc : st1.noneCount = len
        · rw [if_pos hnc]
          exact ⟨by simpa using htr1, hflag1⟩
        · rw [if_neg hnc]
          exact ih _ _ hflag1 htr1

/-- Helper: a polled child that did not yield ends the call with its awoken
flag cleared; the yielding child is the last polled index. -/
theorem pollMergedGo_polled_flag {P O T : Type} (pollStep : P → PollOut O × P)
    (optFn : O → Option T) (noneFn : O → Bool) (len : Nat) (j : Nat) :
    ∀ (order : List Nat) (st : MergeState P) (tr : List Nat),
      (∀ x ∈ order, x < st.flags.length) →
      (j ∈ tr → st.flags.get? j = some (some false)) →
      j ∈ (pollMergedGo pollStep optFn noneFn len order st tr).polled →
      (pollMergedGo pollStep optFn noneFn len order st tr).state.flags.get? j =
        some (some false) ∨
      (∃ t, (pollMergedGo pollStep optFn noneFn len order st tr).out = .yielded t ∧
        (pollMergedGo pollStep optFn noneFn len order st tr).polled.getLast? = some j) := by
  intro order
  induction order with
  | nil =>
    intro st tr _ hpre hmem
    simp only [pollMergedGo] at hmem ⊢
    exact Or.inl (hpre (by simpa using hmem))
  | cons k rest ih =>
    intro st tr horder hpre hmem
    have hklen : k < st.flags.length := horder k (List.mem_cons_self _ _)
    rw [pollMergedGo] at hmem ⊢
    cases hstep : pollMergedStep pollStep optFn noneFn k st tr with
    | inl res =>
      rw [hstep] at hmem
      obtain ⟨_, _, hflags, hpolled, t, hout⟩ := pollMergedStep_inl _ _ _ _ _ _ _ hstep
      rw [hpolled] at hmem
      rcases (by simpa using hmem : j ∈ tr ∨ j = k) with hj | rfl
      · by_cases hkj : k = j
        · subst hkj
          refine Or.inr ⟨t, hout, ?_⟩
          rw [hpolled, List.reverse_cons, List.getLast?_concat]
        · refine Or.inl ?_
          rw [hflags, List.get?_set_ne _ _ hkj]
          exact hpre hj
      · refine Or.inr ⟨t, hout, ?_⟩
        rw [hpolled, List.reverse_cons, List.getLast?_concat]
    | inr st1tr =>
      obtain ⟨st1, tr1⟩ := st1tr
      rw [hstep] at hmem
      obtain ⟨_, _, hflen, hcases⟩ := pollMergedStep_inr _ _ _ _ _ _ _ _ hstep
      have hpre1 : j ∈ tr1 → st1.flags.get? j = some (some false) := by
        intro hj1
        rcases hcases with ⟨rfl, hf⟩ | ⟨rfl, hf⟩ | ⟨rfl, hf⟩
        · rw [hf]; exact hpre hj1
        · rw [hf]
          by_cases hkj : k = j
          · subst hkj; rw [List.get?_set_eq_of_lt _ hklen]
          · rw [List.get?_set_ne _ _ hkj]; exact hpre hj1
        · rw [hf]
          by_cases hkj : k = j
          · subst hkj; rw [List.get?_set_eq_of_lt _ hklen]
          · rw [List.get?_set_ne _ _ hkj]
            exact hpre ((List.mem_cons.mp hj1).resolve_left fun h => hkj h.symm)
      have horder1 : ∀ x ∈ rest, x < st1.flags.length := fun x hx =>
        hflen ▸ horder x (List.mem_cons_of_mem _ hx)
      dsimp only at hmem ⊢
      by_cases hnc : st1.noneCount = len
      · rw [if_pos hnc] at hmem ⊢
        exact Or.inl (hpre1 (by simpa using hmem))
      · rw [if_neg hnc] at hmem ⊢
        exact ih _ _ horder1 hpre1 hmem

/-- Helper: once the trace is non-empty its first-recorded index is the head
of the final polled list. -/
theorem pollMergedGo_polled_head {P O T : Type} (pollStep : P → PollOut O × P)
    (optFn : O → Option T) (noneFn : O → Bool) (len : Nat) :
    ∀ (order : List Nat) (st : MergeState P) (tr : List Nat) (k : Nat),
      tr.getLast? = some k →
      (pollMergedGo pollStep optFn noneFn len order st tr).polled.head? = some k := by
  intro order
  induction order with
  | nil =>
    intro st tr k hlast
    simp only [pollMergedGo]
    rw [List.head?_reverse]
    exact hlast
  | cons k' rest ih =>
    intro st tr k hlast
    have htrne : tr ≠ [] := by
      intro h; rw [h] at hlast; cases hlast
    rw [pollMergedGo]
    cases hstep : pollMergedStep pollStep optFn noneFn k' st tr with
    | inl res =>
      obtain ⟨_, _, _, hpolled, _⟩ := pollMergedStep_inl _ _ _ _ _ _ _ hstep
      rw [hpolled, List.reverse_cons, List.head?_append_of_ne_nil _ (by simpa using htrne),
        List.head?_reverse]
      exact hlast
    | inr st1tr =>
      obtain ⟨st1, tr1⟩ := st1tr
      obtain ⟨_, _, _, hcases⟩ := pollMergedStep_inr _ _ _ _ _ _ _ _ hstep
      have hlast1 : tr1.getLast? = some k := by
        rcases hcases with ⟨rfl, _⟩ | ⟨rfl, _⟩ | ⟨rfl, _⟩
        · exact hlast
        · exact hlast
        · have := List.mem_getLast?_cons (x := k) (y := k') (l := tr)
            (by rw [Option.mem_def]; exact hlast)
          rwa [Option.mem_def] at this
      dsimp only
      by_cases hnc : st1.noneCount = len
      · rw [if_pos hnc]
        dsimp only
        rw [List.head?_reverse]
        exact hlast1
      · rw [if_neg hnc]
        exact ih _ _ _ hlast1

/-- Helper: the rotated visit order is the `m ↦ (idx + m) % len` image of
`range len`. -/
theorem visitOrder_eq_map (len idx : Nat) (h : idx ≤ len) :
    visitOrder len idx = (List.range len).map (fun m => (idx + m) % len) := by
  apply List.ext
  intro n
  have hlenL : (visitOrder len idx).length = len := by
    simp [visitOrder]
    omega
  by_cases hn : n < len
  · by_cases hfirst : n < len - idx
    · rw [visitOrder, List.get?_append (by simp; omega), List.get?_drop,
        List.get?_range (by omega), List.get?_map, List.get?_range hn]
      simp only [Option.map_some']
      rw [Nat.mod_eq_of_lt (by omega)]
    · rw [visitOrder, List.get?_append_right (by simp; omega)]
      rw [List.get?_take (by simp [List.length_drop]; omega),
        List.get?_range (by simp [List.length_drop]; omega),
        List.get?_map, List.get?_range hn]
      simp only [Option.map_some', List.length_drop, List.length_range]
      have h1 : len ≤ idx + n := by omega
      have h2 : (idx + n) % len = idx + n - len := by
        rw [Nat.mod_eq_sub_mod h1, Nat.mod_eq_of_lt (by omega)]
      rw [h2]
      congr 1
      omega
  · rw [List.get?_eq_none.mpr (by omega : (visitOrder len idx).length ≤ n),
      List.get?_eq_none.mpr (by simp; omega)]

/-- Helper: the visit order steps by one modulo `len` between consecutive
slots. -/
theorem visitOrder_chain (len idx : Nat) (h : idx ≤ len) :
    List.Chain' (fun a b => b = (a + 1) % len) (visitOrder len idx) := by
  rw [visitOrder_eq_map len idx h, List.chain'_map]
  cases len with
  | zero => simp
  | succ n =>
    rw [List.chain'_range_succ]
    intro m _
    have h1 : ((idx + m) % (n + 1) + 1) % (n + 1) = (idx + m + 1) % (n + 1) :=
      Nat.ModEq.add_right 1 (Nat.mod_modEq (idx + m) (n + 1))
    rw [h1]
    rfl

/-- Helper: every element of the visit order is a valid slot index. -/
theorem visitOrder_mem_lt (len idx : Nat) (h : idx ≤ len) :
    ∀ x ∈ visitOrder len idx, x < len := by
  intro x hx
  rw [visitOrder_eq_map len idx h] at hx
  obtain ⟨m, hm, rfl⟩ := List.mem_map.mp hx
  exact Nat.mod_lt _ (by have := List.mem_range.mp hm; omega)

/-- Helper: when `idx < len`, the visit order starts at `idx`. -/
theorem visitOrder_head (len idx : Nat) (h : idx < len) :
    (visitOrder len idx).head? = some idx := by
  rw [visitOrder_eq_map len idx (Nat.le_of_lt h), List.head?_map]
  cases len with
  | zero => omega
  | succ n =>
    rw [List.range_succ_eq_map]
    simp [Nat.mod_eq_of_lt h]

/-- Helper: when the loop returns a yielded value, the yielding slot `k` is
the last polled index, the rotating index is left exactly at `k`, and `k`'s
awoken flag has been re-set. -/
theorem pollMergedGo_yield {P O T : Type} (pollStep : P → PollOut O × P)
    (optFn : O → Option T) (noneFn : O → Bool) (len : Nat) :
    ∀ (order : List Nat) (st : MergeState P) (tr : List Nat) (t : T),
      List.Chain' (fun a b => b = (a + 1) % len) order →
      (∀ x ∈ order, x < len) →
      (∀ k rest', order = k :: rest' → st.idx = k) →
      st.flags.length = len →
      (pollMergedGo pollStep optFn noneFn len order st tr).out = .yielded t →
      ∃ k, (pollMergedGo pollStep optFn noneFn len order st tr).state.idx = k ∧
        (pollMergedGo pollStep optFn noneFn len order st tr).polled.getLast? = some k ∧
        (pollMergedGo pollStep optFn noneFn len order st tr).state.flags.get? k =
          some (some true) := by
  intro order
  induction order with
  | nil =>
    intro st tr t _ _ _ _ hy
    simp only [pollMergedGo] at hy
    cases hy
  | cons k rest ih =>
    intro st tr t hchain horder hhead hflen hy
    have hidx : st.idx = k := hhead k rest rfl
    have hklen : k < len := horder k (List.mem_cons_self _ _)
    rw [pollMergedGo] at hy ⊢
    cases hstep : pollMergedStep pollStep optFn noneFn k st tr with
    | inl res =>
      rw [hstep] at hy
      obtain ⟨hridx, _, hflags, hpolled, _⟩ := pollMergedStep_inl _ _ _ _ _ _ _ hstep
      refine ⟨k, hridx.trans hidx, ?_, ?_⟩
      · rw [hpolled, List.reverse_cons, List.getLast?_concat]
      · rw [hflags, List.get?_set_eq_of_lt _ (by omega)]
    | inr st1tr =>
      obtain ⟨st1, tr1⟩ := st1tr
      rw [hstep] at hy
      obtain ⟨hidx1, _, hflen1, _⟩ := pollMergedStep_inr _ _ _ _ _ _ _ _ hstep
      dsimp only at hy ⊢
      by_cases hnc : st1.noneCount = len
      · rw [if_pos hnc] at hy
        cases hy
      · rw [if_neg hnc] at hy ⊢
        refine ih _ _ t hchain.tail (fun x hx => horder x (List.mem_cons_of_mem _ hx))
          ?_ (hflen1.trans hflen) hy
        intro k' rest' hrest
        subst hrest
        have hrel : k' = (k + 1) % len := (List.chain'_cons.mp hchain).1
        dsimp only
        rw [hidx1, hidx, hrel]

/-- Helper: every element of the visit order is a valid slot index
(unconditionally). -/
theorem visitOrder_mem_lt' (len idx : Nat) :
    ∀ x ∈ visitOrder len idx, x < len := by
  intro x hx
  rcases List.mem_append.mp hx with h | h
  · exact List.mem_range.mp (List.mem_of_mem_drop h)
  · exact List.mem_range.mp (List.mem_of_mem_take h)

/-- Helper: a `poll_next` call on a state whose start index points at an
occupied slot with its awoken flag set polls that slot first. -/
theorem poll_merged_first_polled {P O T : Type} (pollStep : P → PollOut O × P)
    (optFn : O → Option T) (noneFn : O → Bool) (st : MergeState P) (p : P)
    (hidx : st.idx < st.pollers.length)
    (hpol : st.pollers.get? st.idx = some (some p))
    (hflag : st.flags.get? st.idx = some (some true)) :
    (poll_merged pollStep optFn noneFn st).polled.head? = some st.idx := by
  unfold poll_merged
  obtain ⟨order', horder⟩ : ∃ o',
      visitOrder st.pollers.length st.idx = st.idx :: o' := by
    have hh := visitOrder_head st.pollers.length st.idx hidx
    cases hv : visitOrder st.pollers.length st.idx with
    | nil => rw [hv] at hh; cases hh
    | cons a o' =>
      rw [hv] at hh
      simp only [List.head?_cons, Option.some_inj] at hh
      exact ⟨o', by rw [hh]⟩
  rw [horder, pollMergedGo]
  rcases pollMergedStep_polled pollStep optFn noneFn st.idx st [] p hpol
      (by rw [hflag]; rfl) with ⟨res, hstep, hpolled⟩ | ⟨st1, hstep⟩
  · rw [hstep, hpolled]
    rfl
  · rw [hstep]
    dsimp only
    by_cases hnc : st1.noneCount = st.pollers.length
    · rw [if_pos hnc]
      rfl
    · rw [if_neg hnc]
      exact pollMergedGo_polled_head pollStep optFn noneFn _ order' _ _ st.idx rfl

/-- C3 (amended): when `poll_next` returns a value, the yielding child `k`
is the last polled index, the rotating start index is left exactly at `k`
(it has not advanced past `k`), `k`'s awoken flag is set again, and if slot
`k` is still occupied (a stream that yielded an item) then `k` is the first
child polled on the next `poll_next` call. -/
theorem merge_yield_restart {P O T : Type} (pollStep : P → PollOut O × P)
    (optFn : O → Option T) (noneFn : O → Bool) (st : MergeState P) (t : T)
    (hwf : st.flags.length = st.pollers.length)
    (hidx : st.idx < st.pollers.length)
    (hy : (poll_merged pollStep optFn noneFn st).out = .yielded t) :
    ∃ k, (poll_merged pollStep optFn noneFn st).polled.getLast? = some k ∧
      (poll_merged pollStep optFn noneFn st).state.idx = k ∧
      (poll_merged pollStep optFn noneFn st).state.flags.get? k = some (some true) ∧
      ∀ p, (poll_merged pollStep optFn noneFn st).state.pollers.get? k =
          some (some p) →
        (poll_merged pollStep optFn noneFn
          (poll_merged pollStep optFn noneFn st).state).polled.head? = some k := by
  have hlens := pollMergedGo_lengths pollStep optFn noneFn st.pollers.length
    (visitOrder st.pollers.length st.idx) st []
  obtain ⟨k, hk1, hk2, hk3⟩ := pollMergedGo_yield pollStep optFn noneFn
    st.pollers.length (visitOrder st.pollers.length st.idx) st [] t
    (visitOrder_chain _ _ (Nat.le_of_lt hidx))
    (visitOrder_mem_lt' _ _)
    (fun k rest' hrest => by
      have hh := visitOrder_head st.pollers.length st.idx hidx
      rw [hrest] at hh
      simp only [List.head?_cons, Option.some_inj] at hh
      exact hh.symm)
    (hwf.trans rfl) hy
  have he : pollMergedGo pollStep optFn noneFn st.pollers.length
      (visitOrder st.pollers.length st.idx) st [] =
      poll_merged pollStep optFn noneFn st := rfl
  rw [he] at hk1 hk2 hk3 hlens
  refine ⟨k, hk2, hk1, hk3, ?_⟩
  intro p hp
  have hkbound : k < (poll_merged pollStep optFn noneFn st).state.flags.length :=
    (List.get?_eq_some.mp hk3).1
  have hres := poll_merged_first_polled pollStep optFn noneFn
    (poll_merged pollStep optFn noneFn st).state p
    (by rw [hk1]
        calc k < (poll_merged pollStep optFn noneFn st).state.flags.length := hkbound
        _ = st.flags.length := hlens.2
        _ = st.pollers.length := hwf
        _ = (poll_merged pollStep optFn noneFn st).state.pollers.length := hlens.1.symm)
    (by rw [hk1]; exact hp)
    (by rw [hk1]; exact hk3)
  rw [hk1] at hres
  exact hres

/-- C4: (i) a child polled during a `poll_next` call ends the call with its
awoken flag cleared, unless it is the child that yielded (the last polled
index); (ii) a child whose awoken flag is cleared — as it is after a poll in
which it returned pending — is not polled during any number of subsequent
`poll_next` calls, and its flag stays cleared, until its trampoline waker
sets the flag again. -/
theorem merge_pending_child_not_repolled {P O T : Type}
    (pollStep : P → PollOut O × P) (optFn : O → Option T) (noneFn : O → Bool)
    (st : MergeState P) (j : Nat)
    (hwf : st.flags.length = st.pollers.length) :
    (j ∈ (poll_merged pollStep optFn noneFn st).polled →
      (poll_merged pollStep optFn noneFn st).state.flags.get? j =
        some (some false) ∨
      (∃ t, (poll_merged pollStep optFn noneFn st).out = .yielded t ∧
        (poll_merged pollStep optFn noneFn st).polled.getLast? = some j)) ∧
    (st.flags.get? j = some (some false) → ∀ n : Nat,
      j ∉ (pollMergedIter pollStep optFn noneFn n st).1.join ∧
      (pollMergedIter pollStep optFn noneFn n st).2.flags.get? j =
        some (some false)) := by
  constructor
  · intro hmem
    exact pollMergedGo_polled_flag pollStep optFn noneFn st.pollers.length j
      (visitOrder st.pollers.length st.idx) st []
      (fun x hx => hwf ▸ visitOrder_mem_lt' _ _ x hx)
      (by intro h; cases h) hmem
  · intro hflag n
    induction n generalizing st with
    | zero => exact ⟨by simp [pollMergedIter], hflag⟩
    | succ n ih =>
      have hsingle := pollMergedGo_flag_false pollStep optFn noneFn
        st.pollers.length j (visitOrder st.pollers.length st.idx) st [] hflag
        (by intro h; cases h)
      obtain ⟨hnot, hflag1⟩ := hsingle
      have hl := pollMergedGo_lengths pollStep optFn noneFn st.pollers.length
        (visitOrder st.pollers.length st.idx) st []
      have hwf1 : (pollMergedGo pollStep optFn noneFn st.pollers.length
          (visitOrder st.pollers.length st.idx) st []).state.flags.length =
          (pollMergedGo pollStep optFn noneFn st.pollers.length
          (visitOrder st.pollers.length st.idx) st []).state.pollers.length := by
        rw [hl.1, hl.2, hwf]
      obtain ⟨ihnot, ihflag⟩ := ih _ hwf1 hflag1
      constructor
      · simp only [pollMergedIter, List.join_cons, List.mem_append]
        rintro (h | h)
        · exact hnot h
        · exact ihnot h
      · simpa only [pollMergedIter] using ihflag

/-- A merged stream child that is always immediately ready, yielding its own
identifier and never terminating. -/
def alwaysReadyStep (p : Nat) : PollOut (Option Nat) × Nat := (.ready (some p), p)

/-- A fresh `MergeStream` state over two always-ready children. -/
def mergeTwoReady : MergeState Nat := ⟨[some 0, some 1], [none, none], 0, 0⟩

/-- C3 (counterexample): with two always-ready merged streams, the first
`poll_next` yields child 0's value, leaves the start index at 0 — not
advanced past it — and the second `poll_next` again yields child 0's value
having polled only child 0; child 1, though ready, is never polled, so an
always-ready child does not yield "at most one value in a row". -/
theorem merge_round_robin_cex :
    (MergeStream.poll_next alwaysReadyStep mergeTwoReady).out = .yielded 0 ∧
    (MergeStream.poll_next alwaysReadyStep mergeTwoReady).state.idx = 0 ∧
    (MergeStream.poll_next alwaysReadyStep
      (MergeStream.poll_next alwaysReadyStep mergeTwoReady).state).out = .yielded 0 ∧
    (MergeStream.poll_next alwaysReadyStep
      (MergeStream.poll_next alwaysReadyStep mergeTwoReady).state).polled = [0] := by
  decide

/-- C3 witness: the amended statement evaluated on the two always-ready
streams: the yielder is child 0, the index stays at 0, its flag is set, and
it is the first child polled on the next call. -/
theorem merge_yield_restart_witness :
    ∃ k, (poll_merged alwaysReadyStep id Option.isNone mergeTwoReady).polled.getLast? =
        some k ∧
      (poll_merged alwaysReadyStep id Option.isNone mergeTwoReady).state.idx = k ∧
      (poll_merged alwaysReadyStep id Option.isNone
        mergeTwoReady).state.flags.get? k = some (some true) ∧
      ∀ p, (poll_merged alwaysReadyStep id Option.isNone
          mergeTwoReady).state.pollers.get? k = some (some p) →
        (poll_merged alwaysReadyStep id Option.isNone
          (poll_merged alwaysReadyStep id Option.isNone
            mergeTwoReady).state).polled.head? = some k :=
  merge_yield_restart alwaysReadyStep id Option.isNone mergeTwoReady 0
    rfl (by decide) (by decide)

/-- C4 witness: a single child merge whose child's flag is cleared: two
consecutive `poll_next` calls poll nothing. -/
theorem merge_pending_child_not_repolled_witness :
    0 ∉ (pollMergedIter alwaysReadyStep id Option.isNone 2
      ⟨[some 5], [some false], 0, 0⟩).1.join :=
  ((merge_pending_child_not_repolled alwaysReadyStep id Option.isNone
    ⟨[some 5], [some false], 0, 0⟩ 0 rfl).2 rfl 2).1
